import Mathlib

/-!
Verification of the Muse Athena packet decoder and client
(`src/lib/athena-parser.ts`, `src/muse-athena.ts`).

The TypeScript sources are embedded shallowly:
* byte buffers (`Uint8Array`) become `List ℕ`, indexed with `List.getD _ _ 0`
  (an out-of-range JS read behaves as the bit value 0 in every bit-level
  expression of the source, and every in-range read is a plain `getD`);
* JS numbers occurring as scaled physical values or timestamps become `ℚ`,
  with decimal literals read exactly;
* `throw` becomes `Except.error`, so a fallible routine returns
  `Except String α`.

Definitions are transliterated from the TypeScript; a few width-generic
helpers (`byteBit`, `extractField`, `extractUnsigned`) name the loop shape
that the source repeats at widths 14, 16 and 20, and are proved equal to
each specialized loop.
-/

namespace MuseAthena

/-- Bit `bitPos % 8` of byte `bitPos / 8` of a buffer: the expression
`(buf[byteOffset] >> bitInByte) & 1` that every bit loop of
`athena-parser.ts` uses (out-of-range bytes read as 0). -/
def byteBit (buf : List ℕ) (bitPos : ℕ) : ℕ :=
  buf.getD (bitPos / 8) 0 / 2 ^ (bitPos % 8) % 2

/-- One LSB-first field of `width` bits starting at absolute bit `start`:
the inner loop `for (bitIndex...) if (bit) val |= 1 << bitIndex` shared by
`parseUint14LEValues`, the optical 20-bit loop and `bitsToInt`. -/
def extractField (buf : List ℕ) (start width : ℕ) : ℕ :=
  (List.range width).foldl
    (fun val bitIndex =>
      if byteBit buf (start + bitIndex) = 1 then val ||| (1 <<< bitIndex) else val)
    0

/-- `parseUint14LEValues` from `athena-parser.ts`: `floor(len*8/14)`
consecutive 14-bit LSB-first unsigned fields. -/
def parseUint14LEValues (buf : List ℕ) : List ℕ :=
  (List.range (buf.length * 8 / 14)).map fun i => extractField buf (i * 14) 14

/-- `bytesToBitarray` from `athena-parser.ts`: LSB-first bit expansion. -/
def bytesToBitarray (data : List ℕ) : List ℕ :=
  data.flatMap fun byte => (List.range 8).map fun i => byte / 2 ^ i % 2

/-- `bitsToInt` from `athena-parser.ts`: little-endian reassembly of
`width` bits of a bit array (a JS out-of-range read is falsy). -/
def bitsToInt (bits : List ℕ) (startIdx width : ℕ) : ℕ :=
  (List.range width).foldl
    (fun val i =>
      if bits.getD (startIdx + i) 0 ≠ 0 then val ||| (1 <<< i) else val)
    0

/-- The spec's §4.1 `extractUnsigned(buffer, bitWidth)`: consecutive
`bitWidth`-bit LSB-first fields, one per complete field in the buffer.
In the source this contract appears as three width-specialized loops
(width 14 `parseUint14LEValues`, width 16 `bitsToInt` over
`bytesToBitarray`, and the inline 20-bit optical loop). -/
def extractUnsigned (buf : List ℕ) (bitWidth : ℕ) : List ℕ :=
  (List.range (buf.length * 8 / bitWidth)).map fun i =>
    extractField buf (i * bitWidth) bitWidth

lemma byteBit_lt_two (buf : List ℕ) (p : ℕ) : byteBit buf p < 2 :=
  Nat.mod_lt _ (by norm_num)

lemma lor_two_pow_eq_add {a i : ℕ} (h : a < 2 ^ i) : a ||| 2 ^ i = a + 2 ^ i := by
  apply Nat.eq_of_testBit_eq
  intro j
  rw [Nat.testBit_lor, Nat.testBit_two_pow]
  rcases lt_trichotomy j i with hj | hj | hj
  · have hrep : 2 ^ i = 2 ^ j * (2 * 2 ^ (i - j - 1)) := by
      have hi : j + (1 + (i - j - 1)) = i := by omega
      calc 2 ^ i = 2 ^ (j + (1 + (i - j - 1))) := by rw [hi]
        _ = 2 ^ j * (2 ^ 1 * 2 ^ (i - j - 1)) := by rw [pow_add, pow_add]
        _ = 2 ^ j * (2 * 2 ^ (i - j - 1)) := by norm_num
    have hmod : (a + 2 ^ i) / 2 ^ j % 2 = a / 2 ^ j % 2 := by
      rw [hrep, Nat.add_mul_div_left _ _ (Nat.pos_pow_of_pos j (by norm_num)),
        Nat.add_mul_mod_self_left]
    have hne : i ≠ j := by omega
    simp [Nat.testBit_to_div_mod, hmod, hne]
  · subst hj
    have h1 : a.testBit j = false := Nat.testBit_lt_two_pow h
    have h2 : (a + 2 ^ j).testBit j = true := by
      rw [Nat.testBit_to_div_mod, Nat.add_div_right _ (Nat.pos_pow_of_pos j (by norm_num)),
        Nat.div_eq_of_lt h]
      decide
    simp [h1, h2]
  · have h1 : a.testBit j = false :=
      Nat.testBit_lt_two_pow (lt_trans h (Nat.pow_lt_pow_right (by norm_num) hj))
    have h2 : (a + 2 ^ i).testBit j = false := by
      apply Nat.testBit_lt_two_pow
      calc a + 2 ^ i < 2 ^ i + 2 ^ i := by omega
        _ = 2 ^ (i + 1) := by ring
        _ ≤ 2 ^ j := Nat.pow_le_pow_right (by norm_num) hj
    have hne : i ≠ j := by omega
    simp [h1, h2, hne]

/-- The LSB-first field loop, peeled at its last bit (as in the source:
`val |= 1 << bitIndex` when the bit is set). -/
lemma extractField_peel (buf : List ℕ) (start w : ℕ) :
    extractField buf start (w + 1) =
      if byteBit buf (start + w) = 1 then
        extractField buf start w ||| (1 <<< w)
      else extractField buf start w := by
  unfold extractField
  rw [List.range_succ, List.foldl_append]
  simp

/-- The LSB-first field loop adds `2 ^ w` times the `w`-th bit, and its
first `w` bits stay below `2 ^ w`. -/
lemma extractField_succ (buf : List ℕ) (start w : ℕ) :
    extractField buf start (w + 1) =
      extractField buf start w + 2 ^ w * byteBit buf (start + w) ∧
    extractField buf start w < 2 ^ w := by
  induction w with
  | zero =>
      constructor
      · rw [extractField_peel]
        have hb := byteBit_lt_two buf (start + 0)
        by_cases h : byteBit buf (start + 0) = 1
        · rw [if_pos h, h]
          simp [extractField]
        · have h0 : byteBit buf (start + 0) = 0 := by omega
          rw [if_neg h, h0]
          simp [extractField]
      · simp [extractField]
  | succ w ih =>
      obtain ⟨ih1, ih2⟩ := ih
      have hlt : extractField buf start (w + 1) < 2 ^ (w + 1) := by
        have := byteBit_lt_two buf (start + w)
        rw [ih1, pow_succ]
        nlinarith
      refine ⟨?_, hlt⟩
      rw [extractField_peel]
      have hb := byteBit_lt_two buf (start + (w + 1))
      by_cases h : byteBit buf (start + (w + 1)) = 1
      · rw [if_pos h, h, Nat.shiftLeft_eq, one_mul, lor_two_pow_eq_add hlt, mul_one]
      · have h0 : byteBit buf (start + (w + 1)) = 0 := by omega
        rw [if_neg h, h0, mul_zero, add_zero]

lemma extractField_lt (buf : List ℕ) (start w : ℕ) :
    extractField buf start w < 2 ^ w :=
  (extractField_succ buf start w).2

lemma extractField_eq_add (buf : List ℕ) (start w : ℕ) :
    extractField buf start (w + 1) =
      extractField buf start w + 2 ^ w * byteBit buf (start + w) :=
  (extractField_succ buf start w).1

/-- A field only looks at the bits it covers: buffers agreeing on bits
`start ≤ p < start + w` give equal fields. -/
lemma extractField_congr (buf buf' : List ℕ) (start start' w : ℕ)
    (h : ∀ k < w, byteBit buf (start + k) = byteBit buf' (start' + k)) :
    extractField buf start w = extractField buf' start' w := by
  induction w with
  | zero => simp [extractField]
  | succ w ih =>
      rw [extractField_eq_add, extractField_eq_add,
        ih (fun k hk => h k (Nat.lt_succ_of_lt hk)), h w (Nat.lt_succ_self w)]

/-- `getD` through `drop`/`take` (a `subarray` read) is an absolute read. -/
lemma getD_drop_take (data : List ℕ) (s n q : ℕ) (h : q < n) :
    ((data.drop s).take n).getD q 0 = data.getD (s + q) 0 := by
  rw [List.getD_eq_getElem?_getD, List.getD_eq_getElem?_getD,
    List.getElem?_take, if_pos h, List.getElem?_drop]

/-- A bit of a `subarray` is the corresponding absolute bit. -/
lemma byteBit_drop_take (data : List ℕ) (s n p : ℕ) (h : p < n * 8) :
    byteBit ((data.drop s).take n) p = byteBit data (s * 8 + p) := by
  unfold byteBit
  have hq : p / 8 < n := by omega
  have hdiv : (s * 8 + p) / 8 = s + p / 8 := by
    rw [Nat.mul_comm s 8, Nat.mul_add_div (by norm_num : (0:ℕ) < 8)]
  have hmod : (s * 8 + p) % 8 = p % 8 := by
    rw [Nat.mul_comm s 8, Nat.mul_add_mod]
  rw [getD_drop_take data s n _ hq, hdiv, hmod]

/-- A whole field of a `subarray` equals the absolutely-addressed field. -/
lemma extractField_drop_take (data : List ℕ) (s n start w : ℕ)
    (h : start + w ≤ n * 8) :
    extractField ((data.drop s).take n) start w =
      extractField data (s * 8 + start) w := by
  apply extractField_congr
  intro k hk
  rw [Nat.add_assoc]
  exact byteBit_drop_take data s n (start + k) (by omega)

/-- The LSB-first bit expansion reads back as `byteBit` at every position
(out of range, both sides are 0). -/
lemma bytesToBitarray_getD (data : List ℕ) (p : ℕ) :
    (bytesToBitarray data).getD p 0 = byteBit data p := by
  induction data generalizing p with
  | nil => simp [bytesToBitarray, byteBit]
  | cons b rest ih =>
      have hexp : bytesToBitarray (b :: rest) =
          ((List.range 8).map fun i => b / 2 ^ i % 2) ++ bytesToBitarray rest := by
        simp [bytesToBitarray]
      by_cases hp : p < 8
      · rw [hexp, List.getD_append _ _ _ _ (by simpa using hp),
          List.getD_eq_getElem?_getD]
        have : ((List.range 8).map fun i => b / 2 ^ i % 2)[p]? =
            some (b / 2 ^ p % 2) := by
          rw [List.getElem?_map, List.getElem?_range hp]
          rfl
        rw [this]
        unfold byteBit
        rw [Nat.div_eq_of_lt hp, Nat.mod_eq_of_lt hp]
        rfl
      · have hlen : ((List.range 8).map fun i => b / 2 ^ i % 2).length = 8 := by simp
        rw [hexp, List.getD_append_right _ _ _ _ (by omega), hlen, ih (p - 8)]
        unfold byteBit
        have h8 : p = (p - 8) + 1 * 8 := by omega
        have hdiv : p / 8 = (p - 8) / 8 + 1 := by
          conv_lhs => rw [h8]
          rw [Nat.add_mul_div_right _ _ (by norm_num : (0:ℕ) < 8)]
        have hmod : p % 8 = (p - 8) % 8 := by
          conv_lhs => rw [h8]
          rw [Nat.add_mul_mod_self_right]
        rw [hdiv, hmod]
        rfl

/-- `bitsToInt` over the bit expansion is the same LSB-first field. -/
lemma bitsToInt_bytesToBitarray (data : List ℕ) (start w : ℕ) :
    bitsToInt (bytesToBitarray data) start w = extractField data start w := by
  unfold bitsToInt extractField
  apply List.foldl_ext
  intro a i _
  rw [bytesToBitarray_getD]
  have hb := byteBit_lt_two data (start + i)
  by_cases h : byteBit data (start + i) = 1
  · rw [if_pos (by omega), if_pos h]
  · rw [if_neg (by omega), if_neg h]

/-- `AthenaEntry` from `athena-parser.ts`. -/
structure AthenaEntry where
  type : String
  data : List ℚ
deriving DecidableEq, Repr

/-- `AthenaParsedPacket` from `athena-parser.ts`. -/
structure AthenaParsedPacket where
  index : ℕ
  tag : ℕ
  type : String
  samples : ℕ
  entries : List AthenaEntry
deriving DecidableEq, Repr

/-- Uppercase hex digit, as produced by `toString(16).toUpperCase()`. -/
def hexDigitU (n : ℕ) : Char :=
  "0123456789ABCDEF".toList.getD n '0'

/-- Digits of `n.toString(16).toUpperCase()` (most significant first). -/
def toHexDigits (n : ℕ) : List Char :=
  if h : n < 16 then [hexDigitU n]
  else toHexDigits (n / 16) ++ [hexDigitU (n % 16)]
termination_by n
decreasing_by exact Nat.div_lt_self (by omega) (by norm_num)

/-- The name the source gives an unhandled tag:
`` `UNKNOWN_0x${tag.toString(16).toUpperCase().padStart(2, '0')}` ``. -/
def unknownName (tag : ℕ) : String :=
  "UNKNOWN_0x" ++
    String.mk (List.replicate (2 - (toHexDigits tag).length) '0' ++ toHexDigits tag)

/-- `DataView.getInt16(off, true)` on a byte block: little-endian two's
complement of the byte pair at `off`. -/
def getInt16LE (block : List ℕ) (off : ℕ) : ℤ :=
  let v := block.getD off 0 + 256 * block.getD (off + 1) 0
  if v < 32768 then (v : ℤ) else (v : ℤ) - 65536

/-- `parsePacket` from `athena-parser.ts` (the `verbose` logging is pure
output and is not modelled; `throw` is `Except.error`). -/
def parsePacket (data : List ℕ) (tag : ℕ) (tagIndex : ℕ) :
    Except String (ℕ × String × List AthenaEntry × ℕ) :=
  let payloadStart := tagIndex + 1 + 4
  let len := data.length
  if tag = 0x12 then
    let payloadLen := 28
    let endIndex := payloadStart + payloadLen
    if endIndex > len then
      .error s!"Not enough data for tag 0x12: need {endIndex}, have {len}"
    else
      let block28 := (data.drop payloadStart).take payloadLen
      let values := parseUint14LEValues block28
      let scaled := values.map fun v : ℕ => ((v : ℚ) - 8192) * (885 / 10000)
      .ok (endIndex, "EEG", [⟨"EEG", scaled⟩], 2)
  else if tag = 0x47 then
    let intsNeeded := 18
    let bytesNeeded := intsNeeded * 2
    let endIndex := payloadStart + bytesNeeded
    if endIndex > len then
      .error s!"Not enough data for tag 0x47: need {endIndex}, have {len}"
    else
      let block := (data.drop payloadStart).take bytesNeeded
      let vals := (List.range 18).map fun i => getInt16LE block (i * 2)
      let entries := (List.range 3).flatMap fun i =>
        let base := i * 6
        let accRaw := (vals.drop base).take 3
        let gyroRaw := (vals.drop (base + 3)).take 3
        let accScaled := accRaw.map fun x : ℤ => (x : ℚ) * (610352 / 10 ^ 10)
        let gyroScaled := gyroRaw.map fun x : ℤ => (x : ℚ) * (-(74768 / 10 ^ 7))
        [⟨"ACC", accScaled⟩, ⟨"GYRO", gyroScaled⟩]
      .ok (endIndex, "ACC_GYRO", entries, 3)
  else if tag = 0x34 then
    let bytesNeeded := 30
    let endIndex := payloadStart + bytesNeeded
    if endIndex > len then
      .error s!"Not enough data for tag 0x34: need {endIndex}, have {len}"
    else
      let block := (data.drop payloadStart).take bytesNeeded
      let bitWidth := 20
      let entries := (List.range 3).map fun sample =>
        let sampleValues := (List.range 4).map fun value =>
          extractField block ((sample * 4 + value) * bitWidth) bitWidth
        let scaled := sampleValues.map fun x : ℕ => (x : ℚ) / 32768
        (⟨"OPTICAL", scaled⟩ : AthenaEntry)
      .ok (endIndex, "OPTICAL", entries, 3)
  else if tag = 0x88 then
    let bytesNeeded := 20
    let endIndex := payloadStart + bytesNeeded
    if endIndex > len then
      .error s!"Not enough data for tag 0x88: need {endIndex}, have {len}"
    else
      let block := (data.drop payloadStart).take bytesNeeded
      let bits := bytesToBitarray block
      let nbits := bits.length
      do
        let values ← (List.range 10).mapM fun i =>
          if i * 16 + 16 > nbits then
            (Except.error s!"Not enough bits for 16-bit value {i}" :
              Except String ℕ)
          else .ok (bitsToInt bits (i * 16) 16)
        return (endIndex, "BATTERY", [⟨"BATTERY", values.map fun v : ℕ => (v : ℚ)⟩], 1)
  else
    .ok (tagIndex + 1, unknownName tag, [], 1)

/-- The index advance of one `packetParser` loop iteration: the parsed
packet's `nextIdx` when it moves forward, else `idx + 1` (also on an
exception, whose handler does `idx += 1`). -/
def nextScanIdx (data : List ℕ) (idx : ℕ) : ℕ :=
  match parsePacket data (data.getD idx 0) idx with
  | .ok (nextIdx, _, _, _) => if nextIdx ≤ idx then idx + 1 else nextIdx
  | .error _ => idx + 1

lemma lt_nextScanIdx (data : List ℕ) (idx : ℕ) : idx < nextScanIdx data idx := by
  unfold nextScanIdx
  cases hp : parsePacket data (data.getD idx 0) idx with
  | error msg => simp
  | ok r =>
      obtain ⟨nextIdx, name, entries, samples⟩ := r
      simp only
      split <;> omega

/-- The scanning loop of `packetParser` from `athena-parser.ts`,
collecting `parsedPackets` (`collect = true`, as the callers use it).
The per-type `counts` tally is not consulted by any claim and is omitted;
it does not influence the collected packets or the scan index, and
`packetName` is nonempty in every branch, so the source's
`if (packetName)` test always passes. -/
def packetParserLoop (data : List ℕ) (idx : ℕ) : List AthenaParsedPacket :=
  if h : idx < data.length then
    match parsePacket data (data.getD idx 0) idx with
    | .ok (nextIdx, packetName, entries, samples) =>
        ⟨idx, data.getD idx 0, packetName, samples, entries⟩ ::
          packetParserLoop data (if nextIdx ≤ idx then idx + 1 else nextIdx)
    | .error _ => packetParserLoop data (idx + 1)
  else []
termination_by data.length - idx
decreasing_by
  all_goals simp_wf
  all_goals first
    | (split <;> omega)
    | omega

/-- `packetParser` from `athena-parser.ts`: scan the whole buffer from
index 0. -/
def packetParser (data : List ℕ) : List AthenaParsedPacket :=
  packetParserLoop data 0

/-- The per-kind timestamp fields of `MuseAthenaClient`
(`muse-athena.ts`): `last…Index` / `last…Timestamp`, `null` ↦ `none`. -/
structure AthenaTimestampState where
  lastEegIndex : Option ℤ
  lastEegTimestamp : Option ℚ
  lastAccGyroIndex : Option ℤ
  lastAccGyroTimestamp : Option ℚ
  lastOpticalIndex : Option ℤ
  lastOpticalTimestamp : Option ℚ
deriving DecidableEq, Repr

/-- The `last…Index` field the source's `dataType` conditional selects. -/
def lastIndexFor (st : AthenaTimestampState) (dataType : String) : Option ℤ :=
  if dataType = "eeg" then st.lastEegIndex
  else if dataType = "accgyro" then st.lastAccGyroIndex
  else st.lastOpticalIndex

/-- The `last…Timestamp` field the source's `dataType` conditional
selects. -/
def lastTimestampFor (st : AthenaTimestampState) (dataType : String) : Option ℚ :=
  if dataType = "eeg" then st.lastEegTimestamp
  else if dataType = "accgyro" then st.lastAccGyroTimestamp
  else st.lastOpticalTimestamp

/-- `getAthenaTimestamp` from `muse-athena.ts`, with the mutable fields
passed and returned explicitly and `Date.now()` passed as `now`.
Returns the synthesized timestamp and the updated state. -/
def getAthenaTimestamp (st : AthenaTimestampState) (now : ℚ) (eventIndex : ℤ)
    (samplesPerReading : ℚ) (frequency : ℚ) (dataType : String) :
    ℚ × AthenaTimestampState :=
  let READING_DELTA := 1000 * (1 / frequency) * samplesPerReading
  let lastIndex := lastIndexFor st dataType
  let lastTimestamp := lastTimestampFor st dataType
  let newTimestamp :=
    match lastIndex, lastTimestamp with
    | some _, some t =>
        if now - t > 500 then now - READING_DELTA else t + READING_DELTA
    | _, _ => now - READING_DELTA
  let st' :=
    if dataType = "eeg" then
      { st with lastEegIndex := some eventIndex,
                lastEegTimestamp := some newTimestamp }
    else if dataType = "accgyro" then
      { st with lastAccGyroIndex := some eventIndex,
                lastAccGyroTimestamp := some newTimestamp }
    else
      { st with lastOpticalIndex := some eventIndex,
                lastOpticalTimestamp := some newTimestamp }
  (newTimestamp, st')

/-- A write or a wait on the control channel. -/
inductive ControlEvent where
  | write (cmdBytes : List ℕ)
  | delay (ms : ℕ)
deriving DecidableEq, Repr

/-- `ATHENA_COMMANDS` from `muse-athena.ts`. -/
def ATHENA_COMMANDS : List (String × List ℕ) :=
  [("v4", [0x03, 0x76, 0x34, 0x0a]),
   ("v6", [0x03, 0x76, 0x36, 0x0a]),
   ("s", [0x02, 0x73, 0x0a]),
   ("h", [0x02, 0x68, 0x0a]),
   ("p21", [0x04, 0x70, 0x32, 0x31, 0x0a]),
   ("p1034", [0x06, 0x70, 0x31, 0x30, 0x33, 0x34, 0x0a]),
   ("p1035", [0x06, 0x70, 0x31, 0x30, 0x33, 0x35, 0x0a]),
   ("p1045", [0x06, 0x70, 0x31, 0x30, 0x34, 0x35, 0x0a]),
   ("d", [0x02, 0x64, 0x0a]),
   ("dc001", [0x06, 0x64, 0x63, 0x30, 0x30, 0x31, 0x0a]),
   ("L1", [0x03, 0x4c, 0x31, 0x0a])]

/-- `sendCommand` from `muse-athena.ts` as its control-channel trace: an
unknown command name throws; a known one is queued as one write of its
bytes followed by the 50 ms delay inside the queued thunk. -/
def sendCommandTrace (cmd : String) : Except String (List ControlEvent) :=
  match ATHENA_COMMANDS.lookup cmd with
  | none => .error s!"Unknown Athena command: {cmd}"
  | some cmdBytes => .ok [ControlEvent.write cmdBytes, ControlEvent.delay 50]

/-- `start(preset)` from `muse-athena.ts` as its control-channel trace:
the seven `sendCommand` calls in source order with the fixed delays
between them. -/
def startTrace (preset : String) : Except String (List ControlEvent) := do
  let e1 ← sendCommandTrace "v4"
  let e2 ← sendCommandTrace "s"
  let e3 ← sendCommandTrace "h"
  let e4 ← sendCommandTrace preset
  let e5 ← sendCommandTrace "dc001"
  let e6 ← sendCommandTrace "dc001"
  let e7 ← sendCommandTrace "L1"
  return e1 ++ [ControlEvent.delay 100] ++ e2 ++ [ControlEvent.delay 100] ++
    e3 ++ [ControlEvent.delay 100] ++ e4 ++ [ControlEvent.delay 100] ++
    e5 ++ [ControlEvent.delay 50] ++ e6 ++ [ControlEvent.delay 100] ++
    e7 ++ [ControlEvent.delay 100, ControlEvent.delay 2000]

/-- The `commandLock` promise chain of `muse-athena.ts`: queued commands
run strictly one after another, each as one whole write followed by its
50 ms delay. -/
def runQueue (cmds : List (List ℕ)) : List ControlEvent :=
  cmds.flatMap fun cmdBytes => [ControlEvent.write cmdBytes, ControlEvent.delay 50]

/-- The bytes written by a control-channel trace, in order. -/
def writesOf (evts : List ControlEvent) : List (List ℕ) :=
  evts.filterMap fun e =>
    match e with
    | ControlEvent.write b => some b
    | ControlEvent.delay _ => none

lemma parseUint14LEValues_eq_extractUnsigned (buf : List ℕ) :
    parseUint14LEValues buf = extractUnsigned buf 14 := rfl

/-- Claim C4: for w ∈ {14, 16, 20}, the unsigned bit-field extraction
(`parseUint14LEValues` at 14, `bitsToInt` over the LSB-first bit
expansion at 16, the inline 20-bit loop being `extractField` at width 20)
returns exactly `⌊n·8/w⌋` values, each in `[0, 2^w)`, LSB-first from
bit 0; a zero-length buffer yields an empty sequence. -/
theorem extractUnsigned_width_spec (w : ℕ) (hw : w = 14 ∨ w = 16 ∨ w = 20)
    (buf : List ℕ) :
    (extractUnsigned buf w).length = buf.length * 8 / w
  ∧ (∀ v ∈ extractUnsigned buf w, v < 2 ^ w)
  ∧ parseUint14LEValues buf = extractUnsigned buf 14
  ∧ ((List.range (buf.length * 8 / 16)).map fun i =>
        bitsToInt (bytesToBitarray buf) (i * 16) 16) = extractUnsigned buf 16
  ∧ (buf = [] → extractUnsigned buf w = []) := by
  clear hw
  refine ⟨?_, ?_, rfl, ?_, ?_⟩
  · simp [extractUnsigned]
  · intro v hv
    simp only [extractUnsigned, List.mem_map] at hv
    obtain ⟨i, _, rfl⟩ := hv
    exact extractField_lt buf (i * w) w
  · simp only [extractUnsigned]
    apply List.map_congr_left
    intro i _
    exact bitsToInt_bytesToBitarray buf (i * 16) 16
  · intro hbuf
    subst hbuf
    simp [extractUnsigned]

/-- Witness for C4 at `w = 14` on the two-byte buffer `[0xff, 0x01]`. -/
theorem extractUnsigned_width_spec_witness :
    ((14 : ℕ) = 14 ∨ (14 : ℕ) = 16 ∨ (14 : ℕ) = 20) ∧
    ((extractUnsigned [0xff, 0x01] 14).length = ([0xff, 0x01] : List ℕ).length * 8 / 14
  ∧ (∀ v ∈ extractUnsigned [0xff, 0x01] 14, v < 2 ^ 14)
  ∧ parseUint14LEValues [0xff, 0x01] = extractUnsigned [0xff, 0x01] 14
  ∧ ((List.range (([0xff, 0x01] : List ℕ).length * 8 / 16)).map fun i =>
        bitsToInt (bytesToBitarray [0xff, 0x01]) (i * 16) 16) =
      extractUnsigned [0xff, 0x01] 16
  ∧ (([0xff, 0x01] : List ℕ) = [] → extractUnsigned [0xff, 0x01] 14 = [])) :=
  ⟨Or.inl rfl, extractUnsigned_width_spec 14 (Or.inl rfl) [0xff, 0x01]⟩

/-- The single EEG entry a tag-`0x12` packet at `t` decodes to: sixteen
14-bit LSB-first fields of bytes `t+5 .. t+33`, scaled to microvolts. -/
def eegEntriesOf (data : List ℕ) (t : ℕ) : List AthenaEntry :=
  [⟨"EEG", (List.range 16).map fun i =>
      ((extractField data ((t + 5) * 8 + i * 14) 14 : ℚ) - 8192) *
        (885 / 10000)⟩]

lemma parsePacket_unknown_decode (data : List ℕ) (tag tagIndex : ℕ)
    (hu : ¬(tag = 0x12 ∨ tag = 0x47 ∨ tag = 0x34 ∨ tag = 0x88)) :
    parsePacket data tag tagIndex =
      .ok (tagIndex + 1, unknownName tag, [], 1) := by
  push_neg at hu
  obtain ⟨h1, h2, h3, h4⟩ := hu
  unfold parsePacket
  rw [if_neg h1, if_neg h2, if_neg h3, if_neg h4]

lemma parsePacket_eeg_decode (data : List ℕ) (t : ℕ) (h : t + 33 ≤ data.length) :
    parsePacket data 0x12 t = .ok (t + 33, "EEG", eegEntriesOf data t, 2) := by
  have hng : ¬ (t + 1 + 4 + 28 > data.length) := by omega
  have hblock : parseUint14LEValues ((data.drop (t + 1 + 4)).take 28) =
      (List.range 16).map fun i => extractField data ((t + 5) * 8 + i * 14) 14 := by
    unfold parseUint14LEValues
    have hlen : ((data.drop (t + 1 + 4)).take 28).length = 28 := by
      simp only [List.length_take, List.length_drop]
      omega
    rw [hlen, show (28 * 8 / 14 : ℕ) = 16 from rfl]
    apply List.map_congr_left
    intro i hi
    rw [List.mem_range] at hi
    rw [extractField_drop_take data (t + 1 + 4) 28 (i * 14) 14 (by omega),
      show t + 1 + 4 = t + 5 from rfl]
  unfold parsePacket eegEntriesOf
  rw [if_pos rfl, if_neg hng]
  simp only [hblock, List.map_map, Function.comp]
  rw [show t + 1 + 4 + 28 = t + 33 from by omega]
  rfl

/-- Claim C6: an unknown tag is consumed as one byte — zero entries, next
offset `tagOffset + 1`, no exception. -/
theorem parsePacket_unknown_tag (data : List ℕ) (tag tagIndex : ℕ)
    (hu : ¬(tag = 0x12 ∨ tag = 0x47 ∨ tag = 0x34 ∨ tag = 0x88)) :
    parsePacket data tag tagIndex =
      .ok (tagIndex + 1, unknownName tag, [], 1) :=
  parsePacket_unknown_decode data tag tagIndex hu

/-- Witness for C6 at tag `0x99` on a one-byte buffer. -/
theorem parsePacket_unknown_tag_witness :
    ¬((0x99 : ℕ) = 0x12 ∨ (0x99 : ℕ) = 0x47 ∨ (0x99 : ℕ) = 0x34 ∨
        (0x99 : ℕ) = 0x88) ∧
    parsePacket [0x99] 0x99 0 = .ok (0 + 1, unknownName 0x99, [], 1) :=
  ⟨by decide, parsePacket_unknown_tag [0x99] 0x99 0 (by decide)⟩

/-- Claim C1: with 33 bytes available from the tag, tag `0x12` decodes to
next offset `t + 33`, kind `EEG`, 2 samples, and one entry whose payload
is the sixteen 14-bit LSB-first fields of bytes `t+5 .. t+33`, each
scaled by `(raw − 8192) × 0.0885`. -/
theorem parsePacket_eeg (data : List ℕ) (t : ℕ) (h : t + 33 ≤ data.length) :
    parsePacket data 0x12 t =
      .ok (t + 33, "EEG",
        [⟨"EEG", (List.range 16).map fun i =>
            ((extractField data ((t + 5) * 8 + i * 14) 14 : ℚ) - 8192) *
              (885 / 10000)⟩], 2) :=
  parsePacket_eeg_decode data t h

/-- Witness for C1 on the zero buffer of 33 bytes at offset 0. -/
theorem parsePacket_eeg_witness :
    0 + 33 ≤ (List.replicate 33 0 : List ℕ).length ∧
    parsePacket (List.replicate 33 0) 0x12 0 =
      .ok (0 + 33, "EEG",
        [⟨"EEG", (List.range 16).map fun i =>
            ((extractField (List.replicate 33 0) ((0 + 5) * 8 + i * 14) 14 : ℚ) -
              8192) * (885 / 10000)⟩], 2) :=
  ⟨by simp, parsePacket_eeg (List.replicate 33 0) 0 (by simp)⟩

/-- Claim C5: with 41 bytes available from the tag, tag `0x47` decodes to
next offset `t + 5 + 36`, 3 samples, and six alternating ACC/GYRO
entries; the 36 payload bytes are 18 consecutive little-endian 16-bit
two's-complement integers, linear values scaled by `6.10352e-5` and
angular values by `−7.4768e-3`. -/
theorem parsePacket_accgyro (data : List ℕ) (t : ℕ) (h : t + 41 ≤ data.length) :
    parsePacket data 0x47 t =
      .ok (t + 5 + 36, "ACC_GYRO",
        (List.range 3).flatMap fun i =>
          [⟨"ACC", (List.range 3).map fun j =>
              ((getInt16LE data (t + 5 + 2 * (6 * i + j)) : ℚ) *
                (610352 / 10 ^ 10))⟩,
           ⟨"GYRO", (List.range 3).map fun j =>
              ((getInt16LE data (t + 5 + 2 * (6 * i + 3 + j)) : ℚ) *
                (-(74768 / 10 ^ 7)))⟩],
        3) := by
  have hng : ¬ (t + 1 + 4 + 18 * 2 > data.length) := by omega
  have hvals : ((List.range 18).map fun i =>
        getInt16LE ((data.drop (t + 1 + 4)).take (18 * 2)) (i * 2)) =
      (List.range 18).map fun k => getInt16LE data (t + 5 + 2 * k) := by
    apply List.map_congr_left
    intro k hk
    rw [List.mem_range] at hk
    simp only [getInt16LE]
    rw [getD_drop_take data (t + 1 + 4) (18 * 2) (k * 2) (by omega),
      getD_drop_take data (t + 1 + 4) (18 * 2) (k * 2 + 1) (by omega),
      show t + 1 + 4 + k * 2 = t + 5 + 2 * k from by omega,
      show t + 1 + 4 + (k * 2 + 1) = t + 5 + 2 * k + 1 from by omega]
  unfold parsePacket
  rw [if_neg (by decide), if_pos rfl, if_neg hng]
  simp only [hvals]
  rfl

/-- Witness for C5 on the zero buffer of 41 bytes at offset 0. -/
theorem parsePacket_accgyro_witness :
    0 + 41 ≤ (List.replicate 41 0 : List ℕ).length ∧
    parsePacket (List.replicate 41 0) 0x47 0 =
      .ok (0 + 5 + 36, "ACC_GYRO",
        (List.range 3).flatMap fun i =>
          [⟨"ACC", (List.range 3).map fun j =>
              ((getInt16LE (List.replicate 41 0) (0 + 5 + 2 * (6 * i + j)) : ℚ) *
                (610352 / 10 ^ 10))⟩,
           ⟨"GYRO", (List.range 3).map fun j =>
              ((getInt16LE (List.replicate 41 0) (0 + 5 + 2 * (6 * i + 3 + j)) : ℚ) *
                (-(74768 / 10 ^ 7)))⟩],
        3) :=
  ⟨by simp, parsePacket_accgyro (List.replicate 41 0) 0 (by simp)⟩

/-- One unfolding of the scanning loop. -/
lemma packetParserLoop_eq (data : List ℕ) (idx : ℕ) :
    packetParserLoop data idx =
      if idx < data.length then
        match parsePacket data (data.getD idx 0) idx with
        | .ok (nextIdx, packetName, entries, samples) =>
            ⟨idx, data.getD idx 0, packetName, samples, entries⟩ ::
              packetParserLoop data (if nextIdx ≤ idx then idx + 1 else nextIdx)
        | .error _ => packetParserLoop data (idx + 1)
      else [] := by
  conv_lhs => rw [packetParserLoop]
  rfl

/-- The fixed payload byte count of each implemented tag. -/
def payloadBytes (tag : ℕ) : Option ℕ :=
  if tag = 0x12 then some 28
  else if tag = 0x47 then some (18 * 2)
  else if tag = 0x34 then some 30
  else if tag = 0x88 then some 20
  else none

/-- Counterexample to claim C2 as stated: on a truncated buffer a known
tag makes `parsePacket` throw (here modelled as `Except.error`), rather
than return a zero-entry result with next offset `tagOffset + 1`. -/
theorem parsePacket_truncated_counterexample :
    parsePacket [0x12] 0x12 0 =
      .error "Not enough data for tag 0x12: need 33, have 1" := by
  rfl

/-- Claim C2 (amended): when a known tag's fixed payload would extend
past the end of the buffer, `parsePacket` raises (never reading out of
bounds), and the scanner `packetParser` catches the exception, records
zero entries, and advances only past the tag byte (`idx + 1`). -/
theorem parsePacket_truncated (data : List ℕ) (tag t plen : ℕ)
    (hplen : payloadBytes tag = some plen)
    (hov : data.length < t + 5 + plen)
    (htag : data.getD t 0 = tag) :
    (∃ msg, parsePacket data tag t = .error msg)
  ∧ nextScanIdx data t = t + 1
  ∧ packetParserLoop data t = packetParserLoop data (t + 1) := by
  have hp : ∃ msg, parsePacket data tag t = .error msg := by
    unfold payloadBytes at hplen
    split_ifs at hplen with h12 h47 h34 h88
    · subst h12
      refine ⟨s!"Not enough data for tag 0x12: need {t + 1 + 4 + 28}, have {data.length}", ?_⟩
      unfold parsePacket
      rw [if_pos rfl, if_pos (by simp only [Option.some.injEq] at hplen; omega)]
    · subst h47
      refine ⟨s!"Not enough data for tag 0x47: need {t + 1 + 4 + 18 * 2}, have {data.length}", ?_⟩
      unfold parsePacket
      rw [if_neg (by decide), if_pos rfl,
        if_pos (by simp only [Option.some.injEq] at hplen; omega)]
    · subst h34
      refine ⟨s!"Not enough data for tag 0x34: need {t + 1 + 4 + 30}, have {data.length}", ?_⟩
      unfold parsePacket
      rw [if_neg (by decide), if_neg (by decide), if_pos rfl,
        if_pos (by simp only [Option.some.injEq] at hplen; omega)]
    · subst h88
      refine ⟨s!"Not enough data for tag 0x88: need {t + 1 + 4 + 20}, have {data.length}", ?_⟩
      unfold parsePacket
      rw [if_neg (by decide), if_neg (by decide), if_neg (by decide), if_pos rfl,
        if_pos (by simp only [Option.some.injEq] at hplen; omega)]
  obtain ⟨msg, hpe⟩ := hp
  refine ⟨⟨msg, hpe⟩, ?_, ?_⟩
  · unfold nextScanIdx
    rw [htag, hpe]
  · rw [packetParserLoop_eq]
    by_cases ht : t < data.length
    · rw [if_pos ht, htag, hpe]
    · rw [if_neg ht, packetParserLoop_eq, if_neg (by omega)]

/-- Witness for the amended C2: a one-byte buffer holding only the EEG
tag. -/
theorem parsePacket_truncated_witness :
    payloadBytes 0x12 = some 28 ∧ ([0x12] : List ℕ).length < 0 + 5 + 28 ∧
    ([0x12] : List ℕ).getD 0 0 = 0x12 ∧
    ((∃ msg, parsePacket [0x12] 0x12 0 = .error msg)
      ∧ nextScanIdx [0x12] 0 = 0 + 1
      ∧ packetParserLoop [0x12] 0 = packetParserLoop [0x12] (0 + 1)) :=
  ⟨by decide, by decide, by decide,
    parsePacket_truncated [0x12] 0x12 0 28 (by decide) (by decide) (by decide)⟩

/-- Claim C10: the scanner makes strict forward progress — every loop
iteration continues at `nextScanIdx`, which strictly exceeds the current
index (one byte on a non-advancing result or an exception), so scanning
any finite buffer terminates and later packets are still visited. -/
theorem packetParser_progress (data : List ℕ) (idx : ℕ) :
    idx < nextScanIdx data idx ∧
    packetParserLoop data idx =
      if idx < data.length then
        match parsePacket data (data.getD idx 0) idx with
        | .ok (nextIdx, packetName, entries, samples) =>
            ⟨idx, data.getD idx 0, packetName, samples, entries⟩ ::
              packetParserLoop data (nextScanIdx data idx)
        | .error _ => packetParserLoop data (nextScanIdx data idx)
      else [] := by
  refine ⟨lt_nextScanIdx data idx, ?_⟩
  rw [packetParserLoop_eq]
  by_cases h : idx < data.length
  · rw [if_pos h, if_pos h]
    cases hp : parsePacket data (data.getD idx 0) idx with
    | error msg =>
        have hnext : nextScanIdx data idx = idx + 1 := by
          unfold nextScanIdx
          rw [hp]
        rw [hnext]
    | ok r =>
        obtain ⟨nextIdx, name, entries, samples⟩ := r
        have hnext : nextScanIdx data idx =
            if nextIdx ≤ idx then idx + 1 else nextIdx := by
          unfold nextScanIdx
          rw [hp]
        rw [hnext]
  · rw [if_neg h, if_neg h]

lemma byteBit_append_left (pre rest : List ℕ) (p : ℕ) (h : p < pre.length * 8) :
    byteBit (pre ++ rest) p = byteBit pre p := by
  unfold byteBit
  rw [List.getD_append _ _ _ _ (by omega)]

lemma byteBit_append_right (pre rest : List ℕ) (p : ℕ) :
    byteBit (pre ++ rest) (pre.length * 8 + p) = byteBit rest p := by
  unfold byteBit
  have hdiv : (pre.length * 8 + p) / 8 = pre.length + p / 8 := by
    rw [Nat.mul_comm, Nat.mul_add_div (by norm_num : (0:ℕ) < 8)]
  have hmod : (pre.length * 8 + p) % 8 = p % 8 := by
    rw [Nat.mul_comm, Nat.mul_add_mod]
  rw [hdiv, hmod, List.getD_append_right _ _ _ _ (by omega),
    show pre.length + p / 8 - pre.length = p / 8 from by omega]

/-- The decoded EEG entry depends only on the 224 payload bits. -/
lemma eegEntriesOf_congr (buf buf' : List ℕ) (t t' : ℕ)
    (h : ∀ p < 224, byteBit buf ((t + 5) * 8 + p) = byteBit buf' ((t' + 5) * 8 + p)) :
    eegEntriesOf buf t = eegEntriesOf buf' t' := by
  unfold eegEntriesOf
  refine congrArg (fun l => [AthenaEntry.mk "EEG" l]) ?_
  apply List.map_congr_left
  intro i hi
  rw [List.mem_range] at hi
  have hf : extractField buf ((t + 5) * 8 + i * 14) 14 =
      extractField buf' ((t' + 5) * 8 + i * 14) 14 := by
    apply extractField_congr
    intro k hk
    rw [Nat.add_assoc, Nat.add_assoc]
    exact h (i * 14 + k) (by omega)
  rw [hf]

/-- Claim C8: scanning `P1 ++ [unknown byte] ++ P2` (both Pᵢ valid 33-byte
bioelectric packets) yields exactly the two EEG decodes that parsing P1
and P2 independently yields, plus one single-byte UnknownTag skip between
them — the stray byte does not desynchronize the following packet. -/
theorem packetParser_resync (p1 p2 : List ℕ) (u : ℕ)
    (h1 : p1.length = 33) (h2 : p2.length = 33)
    (t1 : p1.getD 0 0 = 0x12) (t2 : p2.getD 0 0 = 0x12)
    (hu : ¬(u = 0x12 ∨ u = 0x47 ∨ u = 0x34 ∨ u = 0x88)) :
    packetParser (p1 ++ u :: p2) =
      [⟨0, 0x12, "EEG", 2, eegEntriesOf p1 0⟩,
       ⟨33, u, unknownName u, 1, []⟩,
       ⟨34, 0x12, "EEG", 2, eegEntriesOf p2 0⟩]
  ∧ parsePacket p1 0x12 0 = .ok (0 + 33, "EEG", eegEntriesOf p1 0, 2)
  ∧ parsePacket p2 0x12 0 = .ok (0 + 33, "EEG", eegEntriesOf p2 0, 2) := by
  have hlen : (p1 ++ u :: p2).length = 67 := by simp [h1, h2]
  have hb0 : (p1 ++ u :: p2).getD 0 0 = 0x12 := by
    rw [List.getD_append _ _ _ _ (by omega)]
    exact t1
  have hb33 : (p1 ++ u :: p2).getD 33 0 = u := by
    rw [List.getD_append_right _ _ _ _ (by omega), h1]
    simp
  have hb34 : (p1 ++ u :: p2).getD 34 0 = 0x12 := by
    rw [show p1 ++ u :: p2 = (p1 ++ [u]) ++ p2 from by simp,
      List.getD_append_right _ _ _ _ (by simp [h1]),
      show 34 - (p1 ++ [u]).length = 0 from by simp [h1]]
    exact t2
  have he1 : eegEntriesOf (p1 ++ u :: p2) 0 = eegEntriesOf p1 0 := by
    apply eegEntriesOf_congr
    intro p hp
    exact byteBit_append_left p1 (u :: p2) ((0 + 5) * 8 + p) (by omega)
  have he2 : eegEntriesOf (p1 ++ u :: p2) 34 = eegEntriesOf p2 0 := by
    apply eegEntriesOf_congr
    intro p hp
    rw [show p1 ++ u :: p2 = (p1 ++ [u]) ++ p2 from by simp,
      show (34 + 5) * 8 + p = (p1 ++ [u]).length * 8 + ((0 + 5) * 8 + p) from by
        simp only [List.length_append, h1, List.length_singleton]
        omega]
    exact byteBit_append_right (p1 ++ [u]) p2 ((0 + 5) * 8 + p)
  have hstep1 : parsePacket (p1 ++ u :: p2) 0x12 0 =
      .ok (33, "EEG", eegEntriesOf p1 0, 2) := by
    have := parsePacket_eeg_decode (p1 ++ u :: p2) 0 (by omega)
    rw [he1] at this
    norm_num at this
    exact this
  have hstep2 : parsePacket (p1 ++ u :: p2) u 33 =
      .ok (34, unknownName u, [], 1) := by
    have := parsePacket_unknown_decode (p1 ++ u :: p2) u 33 hu
    norm_num at this
    exact this
  have hstep3 : parsePacket (p1 ++ u :: p2) 0x12 34 =
      .ok (67, "EEG", eegEntriesOf p2 0, 2) := by
    have := parsePacket_eeg_decode (p1 ++ u :: p2) 34 (by omega)
    rw [he2] at this
    norm_num at this
    exact this
  have L67 : packetParserLoop (p1 ++ u :: p2) 67 = [] := by
    rw [packetParserLoop_eq, if_neg (by omega)]
  have L34 : packetParserLoop (p1 ++ u :: p2) 34 =
      ⟨34, 0x12, "EEG", 2, eegEntriesOf p2 0⟩ :: packetParserLoop (p1 ++ u :: p2) 67 := by
    rw [packetParserLoop_eq, if_pos (by omega), hb34, hstep3]
    norm_num
  have L33 : packetParserLoop (p1 ++ u :: p2) 33 =
      ⟨33, u, unknownName u, 1, []⟩ :: packetParserLoop (p1 ++ u :: p2) 34 := by
    rw [packetParserLoop_eq, if_pos (by omega), hb33, hstep2]
    norm_num
  have L0 : packetParserLoop (p1 ++ u :: p2) 0 =
      ⟨0, 0x12, "EEG", 2, eegEntriesOf p1 0⟩ :: packetParserLoop (p1 ++ u :: p2) 33 := by
    rw [packetParserLoop_eq, if_pos (by omega), hb0, hstep1]
    norm_num
  refine ⟨?_, parsePacket_eeg_decode p1 0 (by omega),
    parsePacket_eeg_decode p2 0 (by omega)⟩
  unfold packetParser
  rw [L0, L33, L34, L67]

/-- Witness for C8: two all-zero-payload EEG packets around stray byte
`0x99`. -/
theorem packetParser_resync_witness :
    (0x12 :: List.replicate 32 0 : List ℕ).length = 33 ∧
    (0x12 :: List.replicate 32 0 : List ℕ).getD 0 0 = 0x12 ∧
    ¬((0x99 : ℕ) = 0x12 ∨ (0x99 : ℕ) = 0x47 ∨ (0x99 : ℕ) = 0x34 ∨
        (0x99 : ℕ) = 0x88) ∧
    (packetParser ((0x12 :: List.replicate 32 0) ++ 0x99 :: (0x12 :: List.replicate 32 0)) =
      [⟨0, 0x12, "EEG", 2, eegEntriesOf (0x12 :: List.replicate 32 0) 0⟩,
       ⟨33, 0x99, unknownName 0x99, 1, []⟩,
       ⟨34, 0x12, "EEG", 2, eegEntriesOf (0x12 :: List.replicate 32 0) 0⟩]
    ∧ parsePacket (0x12 :: List.replicate 32 0) 0x12 0 =
        .ok (0 + 33, "EEG", eegEntriesOf (0x12 :: List.replicate 32 0) 0, 2)
    ∧ parsePacket (0x12 :: List.replicate 32 0) 0x12 0 =
        .ok (0 + 33, "EEG", eegEntriesOf (0x12 :: List.replicate 32 0) 0, 2)) :=
  ⟨by simp, rfl, by decide,
    packetParser_resync (0x12 :: List.replicate 32 0) (0x12 :: List.replicate 32 0)
      0x99 (by simp) (by simp) rfl rfl (by decide)⟩

/-- The synthesized timestamp as a function of the selected per-kind
state: the source's recalibrate-or-increment rule. -/
lemma getAthenaTimestamp_core (st : AthenaTimestampState) (now : ℚ)
    (eventIndex : ℤ) (samplesPerReading frequency : ℚ) (kind : String) :
    (getAthenaTimestamp st now eventIndex samplesPerReading frequency kind).1 =
      match lastIndexFor st kind, lastTimestampFor st kind with
      | some _, some t =>
          if now - t > 500 then now - 1000 * (1 / frequency) * samplesPerReading
          else t + 1000 * (1 / frequency) * samplesPerReading
      | _, _ => now - 1000 * (1 / frequency) * samplesPerReading := rfl

/-- The updated state stores the returned timestamp and the device index
under the same kind. -/
lemma getAthenaTimestamp_state (st : AthenaTimestampState) (now : ℚ)
    (eventIndex : ℤ) (samplesPerReading frequency : ℚ) (kind : String)
    (hkind : kind = "eeg" ∨ kind = "accgyro" ∨ kind = "optical") :
    lastTimestampFor
        (getAthenaTimestamp st now eventIndex samplesPerReading frequency kind).2
        kind =
      some (getAthenaTimestamp st now eventIndex samplesPerReading frequency kind).1
  ∧ lastIndexFor
        (getAthenaTimestamp st now eventIndex samplesPerReading frequency kind).2
        kind = some eventIndex := by
  rcases hkind with rfl | rfl | rfl <;>
    simp [getAthenaTimestamp, lastTimestampFor, lastIndexFor]

/-- Claim C3: the interval is `1000 / frequency × samplesPerReading` ms;
on a first call for the kind, or when `now` minus the kind's last
synthesized timestamp exceeds 500 ms, the result is `now − interval`;
otherwise it is the previous timestamp plus the interval — independent of
the device event index passed in. -/
theorem getAthenaTimestamp_spec (st : AthenaTimestampState) (now : ℚ)
    (eventIndex : ℤ) (samplesPerReading frequency : ℚ) (kind : String)
    (hkind : kind = "eeg" ∨ kind = "accgyro" ∨ kind = "optical") :
    (lastIndexFor st kind = none ∨ lastTimestampFor st kind = none →
      (getAthenaTimestamp st now eventIndex samplesPerReading frequency kind).1 =
        now - 1000 / frequency * samplesPerReading)
  ∧ (∀ i t, lastIndexFor st kind = some i → lastTimestampFor st kind = some t →
      (getAthenaTimestamp st now eventIndex samplesPerReading frequency kind).1 =
        if now - t > 500 then now - 1000 / frequency * samplesPerReading
        else t + 1000 / frequency * samplesPerReading)
  ∧ (∀ eventIndex2 : ℤ,
      (getAthenaTimestamp st now eventIndex2 samplesPerReading frequency kind).1 =
        (getAthenaTimestamp st now eventIndex samplesPerReading frequency kind).1) := by
  clear hkind
  have hdelta : (1000 : ℚ) * (1 / frequency) * samplesPerReading =
      1000 / frequency * samplesPerReading := by ring
  refine ⟨?_, ?_, fun _ => rfl⟩
  · intro hnone
    rcases hi : lastIndexFor st kind with _ | i
    · simp only [getAthenaTimestamp_core, hi, hdelta]
    · rcases ht : lastTimestampFor st kind with _ | t0
      · simp only [getAthenaTimestamp_core, hi, ht, hdelta]
      · rcases hnone with h | h
        · rw [hi] at h
          exact absurd h (by simp)
        · rw [ht] at h
          exact absurd h (by simp)
  · intro i t0 hi ht
    simp only [getAthenaTimestamp_core, hi, ht, hdelta]

/-- Witness for C3: empty eeg state at `now = 1000`, frequency 256,
2 samples per reading. -/
theorem getAthenaTimestamp_spec_witness :
    ((("eeg" : String) = "eeg" ∨ ("eeg" : String) = "accgyro" ∨
        ("eeg" : String) = "optical")) ∧
    ((lastIndexFor ⟨none, none, none, none, none, none⟩ "eeg" = none ∨
        lastTimestampFor ⟨none, none, none, none, none, none⟩ "eeg" = none →
      (getAthenaTimestamp ⟨none, none, none, none, none, none⟩ 1000 0 2 256 "eeg").1 =
        1000 - 1000 / 256 * 2)
  ∧ (∀ i t, lastIndexFor ⟨none, none, none, none, none, none⟩ "eeg" = some i →
      lastTimestampFor ⟨none, none, none, none, none, none⟩ "eeg" = some t →
      (getAthenaTimestamp ⟨none, none, none, none, none, none⟩ 1000 0 2 256 "eeg").1 =
        if (1000 : ℚ) - t > 500 then 1000 - 1000 / 256 * 2
        else t + 1000 / 256 * 2)
  ∧ (∀ eventIndex2 : ℤ,
      (getAthenaTimestamp ⟨none, none, none, none, none, none⟩ 1000 eventIndex2 2 256 "eeg").1 =
        (getAthenaTimestamp ⟨none, none, none, none, none, none⟩ 1000 0 2 256 "eeg").1)) :=
  ⟨Or.inl rfl,
    getAthenaTimestamp_spec ⟨none, none, none, none, none, none⟩ 1000 0 2 256 "eeg"
      (Or.inl rfl)⟩

/-- Claim C7: once a kind has a stored timestamp `t0` and the nominal
interval is positive and below 500 ms, every further call strictly
increases the timestamp: below a 500 ms gap it returns `t0 + interval`,
above it `now − interval > t0`; the returned value is stored, so
successive calls chain monotonically. -/
theorem getAthenaTimestamp_monotone (st : AthenaTimestampState) (now : ℚ)
    (eventIndex : ℤ) (samplesPerReading frequency : ℚ) (kind : String)
    (hkind : kind = "eeg" ∨ kind = "accgyro" ∨ kind = "optical")
    (i : ℤ) (t0 : ℚ)
    (hi : lastIndexFor st kind = some i)
    (ht : lastTimestampFor st kind = some t0)
    (hpos : 0 < 1000 * (1 / frequency) * samplesPerReading)
    (hlt : 1000 * (1 / frequency) * samplesPerReading < 500) :
    t0 < (getAthenaTimestamp st now eventIndex samplesPerReading frequency kind).1
  ∧ lastTimestampFor
      (getAthenaTimestamp st now eventIndex samplesPerReading frequency kind).2
      kind =
      some (getAthenaTimestamp st now eventIndex samplesPerReading frequency kind).1
  ∧ (now - t0 ≤ 500 →
      (getAthenaTimestamp st now eventIndex samplesPerReading frequency kind).1 =
        t0 + 1000 * (1 / frequency) * samplesPerReading)
  ∧ (500 < now - t0 →
      (getAthenaTimestamp st now eventIndex samplesPerReading frequency kind).1 =
        now - 1000 * (1 / frequency) * samplesPerReading) := by
  have hcore : (getAthenaTimestamp st now eventIndex samplesPerReading
      frequency kind).1 =
      if now - t0 > 500 then now - 1000 * (1 / frequency) * samplesPerReading
      else t0 + 1000 * (1 / frequency) * samplesPerReading := by
    simp only [getAthenaTimestamp_core, hi, ht]
  refine ⟨?_, (getAthenaTimestamp_state st now eventIndex samplesPerReading
    frequency kind hkind).1, ?_, ?_⟩
  · rw [hcore]
    by_cases hgap : now - t0 > 500
    · rw [if_pos hgap]
      linarith
    · rw [if_neg hgap]
      linarith
  · intro hle
    rw [hcore, if_neg (by linarith)]
  · intro hgt
    rw [hcore, if_pos (by linarith)]

/-- Witness for C7: eeg state holding timestamp 0, call at `now = 1000`
(a gap above 500 ms), frequency 256, 2 samples per reading. -/
theorem getAthenaTimestamp_monotone_witness :
    ((("eeg" : String) = "eeg" ∨ ("eeg" : String) = "accgyro" ∨
        ("eeg" : String) = "optical")) ∧
    lastIndexFor ⟨some 7, some 0, none, none, none, none⟩ "eeg" = some 7 ∧
    lastTimestampFor ⟨some 7, some 0, none, none, none, none⟩ "eeg" = some 0 ∧
    (0 : ℚ) < 1000 * (1 / 256) * 2 ∧ (1000 : ℚ) * (1 / 256) * 2 < 500 ∧
    ((0 : ℚ) < (getAthenaTimestamp ⟨some 7, some 0, none, none, none, none⟩
        1000 8 2 256 "eeg").1
  ∧ lastTimestampFor
      (getAthenaTimestamp ⟨some 7, some 0, none, none, none, none⟩
        1000 8 2 256 "eeg").2 "eeg" =
      some (getAthenaTimestamp ⟨some 7, some 0, none, none, none, none⟩
        1000 8 2 256 "eeg").1
  ∧ ((1000 : ℚ) - 0 ≤ 500 →
      (getAthenaTimestamp ⟨some 7, some 0, none, none, none, none⟩
        1000 8 2 256 "eeg").1 = 0 + 1000 * (1 / 256) * 2)
  ∧ ((500 : ℚ) < 1000 - 0 →
      (getAthenaTimestamp ⟨some 7, some 0, none, none, none, none⟩
        1000 8 2 256 "eeg").1 = 1000 - 1000 * (1 / 256) * 2)) :=
  ⟨Or.inl rfl, rfl, rfl, by norm_num, by norm_num,
    getAthenaTimestamp_monotone ⟨some 7, some 0, none, none, none, none⟩
      1000 8 2 256 "eeg" (Or.inl rfl) 7 0 rfl rfl (by norm_num) (by norm_num)⟩

/-- Claim C9: one run of `start(preset)` issues exactly 7 control-channel
writes in the fixed order version query, status query, halt, preset,
start-streaming twice, indicator — each write followed by its fixed 50 ms
delay — and the single command queue serializes any concurrently enqueued
`pause()` write (`h`) as a whole command between two others, never inside
one. -/
theorem start_sequence_spec (preset : String)
    (hp : preset = "p21" ∨ preset = "p1034" ∨ preset = "p1035" ∨
      preset = "p1045") :
    (∃ presetBytes evts,
      ATHENA_COMMANDS.lookup preset = some presetBytes ∧
      startTrace preset = .ok evts ∧
      writesOf evts =
        [[0x03, 0x76, 0x34, 0x0a], [0x02, 0x73, 0x0a], [0x02, 0x68, 0x0a],
         presetBytes,
         [0x06, 0x64, 0x63, 0x30, 0x30, 0x31, 0x0a],
         [0x06, 0x64, 0x63, 0x30, 0x30, 0x31, 0x0a],
         [0x03, 0x4c, 0x31, 0x0a]] ∧
      (writesOf evts).length = 7 ∧
      (writesOf evts).count [0x06, 0x64, 0x63, 0x30, 0x30, 0x31, 0x0a] = 2)
  ∧ ∀ q1 q2 b, runQueue (q1 ++ b :: q2) =
      runQueue q1 ++ ControlEvent.write b :: ControlEvent.delay 50 :: runQueue q2 := by
  constructor
  · rcases hp with rfl | rfl | rfl | rfl <;>
      exact ⟨_, _, rfl, rfl, by decide, by decide, by decide⟩
  · intro q1 q2 b
    simp [runQueue]

/-- Witness for C9 at the default preset `p1045`. -/
theorem start_sequence_spec_witness :
    (("p1045" : String) = "p21" ∨ ("p1045" : String) = "p1034" ∨
      ("p1045" : String) = "p1035" ∨ ("p1045" : String) = "p1045") ∧
    ((∃ presetBytes evts,
      ATHENA_COMMANDS.lookup "p1045" = some presetBytes ∧
      startTrace "p1045" = .ok evts ∧
      writesOf evts =
        [[0x03, 0x76, 0x34, 0x0a], [0x02, 0x73, 0x0a], [0x02, 0x68, 0x0a],
         presetBytes,
         [0x06, 0x64, 0x63, 0x30, 0x30, 0x31, 0x0a],
         [0x06, 0x64, 0x63, 0x30, 0x30, 0x31, 0x0a],
         [0x03, 0x4c, 0x31, 0x0a]] ∧
      (writesOf evts).length = 7 ∧
      (writesOf evts).count [0x06, 0x64, 0x63, 0x30, 0x30, 0x31, 0x0a] = 2)
  ∧ ∀ q1 q2 b, runQueue (q1 ++ b :: q2) =
      runQueue q1 ++ ControlEvent.write b :: ControlEvent.delay 50 :: runQueue q2) :=
  ⟨by decide, start_sequence_spec "p1045" (by decide)⟩
